import Mathlib

/-!
Shallow embedding of the fairgate client library core
(token store, rate gate, request executor, response envelope, page iterator),
translated from the Go sources: token.go, request.go, client.go and the
response/pagination and iterator files.

Conventions:
* Go `time.Time` values are modelled as `Int` (seconds since the Unix epoch);
  `t.After(u)` is the strict comparison `t > u`, and `2 * time.Minute` is the
  constant `twoMinutes = 120`.
* Go `int` values are modelled as `Int`.
* Fallible Go functions returning `error` are modelled with `Except`/`Option`;
  Go methods that mutate the receiver are modelled as state-passing functions
  returning the new state together with the optional error (returning the old
  state unchanged exactly where the Go code returns before any assignment).
* The network is modelled as an explicit parameter: the decoded outcome the
  HTTP transport would produce for the request the code sends.
-/

namespace Fairgate

/-- Custom claims carried in Fairgate JWT tokens (`jwtClaim` in token.go).
`expiresAt` is the registered expiry timestamp; the embedding assumes the
claim carries one, as the Go code dereferences `ExpiresAt` unconditionally. -/
structure JwtClaim where
  fsaID : String
  uniqID : String
  expiresAt : Int
deriving DecidableEq

/-- Payload of a successful token issue/refresh exchange
(`CreateTokenResponse` in token.go). -/
structure CreateTokenResponse where
  token : String
  refreshToken : String
deriving DecidableEq

/-- The token store (`tokenStore` in token.go).  The `parser`/`keyFunc` pair of
the Go struct — the injected JWT verifier — is modelled by the `validate`
function field: it returns the parsed claims of a token string that verifies
(one allowed signing algorithm, fixed leeway), and `none` otherwise. -/
structure TokenStore where
  token : String
  refreshToken : String
  accessKey : String
  claim : Option JwtClaim
  validate : String → Option JwtClaim

/-- Two minutes, in seconds: the refresh leeway `2 * time.Minute`. -/
def twoMinutes : Int := 120

/-- `(*tokenStore).shouldRefresh` from token.go.  The `Option` on the store
models the Go nil-receiver guard.  `now.Add(2*time.Minute).After(expiry)` is
the strict comparison `now + twoMinutes > expiry`. -/
def shouldRefresh : Option TokenStore → Int → Bool
  | none, _ => true
  | some ts, now =>
    if ts.token = "" then true
    else
      match ts.claim with
      | none => true
      | some c => decide (now + twoMinutes > c.expiresAt)

/-- A field-level API error (`Error` in the response envelope file). -/
structure Error where
  field : String
  message : String
deriving DecidableEq

/-- `Error.Error()`: renders as `"<field>: <message>"`. -/
def Error.errorString (e : Error) : String :=
  e.field ++ ": " ++ e.message

/-- The standard response envelope (`Response[T]`). -/
structure Response (T : Type) where
  code : Int
  success : Bool
  message : String
  data : T
  errors : List Error
deriving DecidableEq

/-- The list of non-nil errors collected by `Response.Error()`:
the message when non-empty, then each field error rendered. -/
def Response.errParts {T : Type} (r : Response T) : List String :=
  (if r.message = "" then [] else [r.message]) ++ r.errors.map Error.errorString

/-- `Response.Error()` from the envelope file.  Returns `none` for a nil
error.  `errors.Join` of the collected slice is nil exactly when the slice is
empty, which happens when `success` is false but the message is empty and the
field-error list is empty. -/
def Response.error {T : Type} (r : Response T) : Option (List String) :=
  if r.success then none
  else
    match r.errParts with
    | [] => none
    | parts => some parts

/-- Error taxonomy of the token operations (the sentinel errors of client.go
plus the wrapped error kinds produced in token.go). -/
inductive TokenErr where
  | noAccessKey
  | noRefreshToken
  | transport
  | decodeFailed
  | api (parts : List String)
  | invalidToken
  | badStatus (code : Int)
deriving DecidableEq

/-- `(*tokenStore).validateToken`: parse and verify a token string through the
store's parser/key function, returning the claims or an error. -/
def validateToken (ts : TokenStore) (tokenString : String) : Except TokenErr JwtClaim :=
  match ts.validate tokenString with
  | none => .error .invalidToken
  | some c => .ok c

/-- `(*tokenStore).updateToken`: validate the returned token; on failure
return before any assignment (store unchanged); on success assign claims,
token and refresh token together. -/
def updateToken (ts : TokenStore) (resp : CreateTokenResponse) : TokenStore × Option TokenErr :=
  match validateToken ts resp.token with
  | .error e => (ts, some e)
  | .ok c =>
      ({ ts with claim := some c, token := resp.token, refreshToken := resp.refreshToken }, none)

/-- Outcome of an HTTP exchange as the token operations consume it: the
status code and the result of JSON-decoding the body into the envelope
(`none` models a body that fails to decode). -/
structure HttpResp where
  status : Int
  decoded : Option (Response CreateTokenResponse)

/-- `(*Client).TokenCreate` from token.go, with the network as an explicit
parameter (`none` models a transport error).  Note that the HTTP status code
of the response is never inspected: the body is decoded whatever the status. -/
def tokenCreate (ts : TokenStore) (accessKey : String) (net : Option HttpResp) :
    TokenStore × Option TokenErr :=
  if accessKey = "" then (ts, some .noAccessKey)
  else
    match net with
    | none => (ts, some .transport)
    | some resp =>
      match resp.decoded with
      | none => (ts, some .decodeFailed)
      | some env =>
        match env.error with
        | some parts => (ts, some (.api parts))
        | none => updateToken ts env.data

/-- `(*Client).TokenRefresh` from token.go, with the current time and the
network as explicit parameters.  Unlike `tokenCreate`, a non-2xx status is
rejected with `badStatus` before the body is decoded. -/
def tokenRefresh (ts : TokenStore) (now : Int) (net : Option HttpResp) :
    TokenStore × Option TokenErr :=
  if ts.token = "" then tokenCreate ts ts.accessKey net
  else if !shouldRefresh (some ts) now then (ts, none)
  else if ts.refreshToken = "" then (ts, some .noRefreshToken)
  else
    match net with
    | none => (ts, some .transport)
    | some resp =>
      if resp.status < 200 ∨ 300 ≤ resp.status then (ts, some (.badStatus resp.status))
      else
        match resp.decoded with
        | none => (ts, some .decodeFailed)
        | some env =>
          match env.error with
          | some parts => (ts, some (.api parts))
          | none => updateToken ts env.data

/-- Number of network round trips `tokenCreate` performs: one dispatch unless
it fails before building the request (empty access key). -/
def tokenCreateNet (accessKey : String) : Nat :=
  if accessKey = "" then 0 else 1

/-- Number of network round trips `tokenRefresh` performs, following its
control flow: the create path delegates; the not-near-expiry path and the
missing-refresh-token path return before any dispatch. -/
def tokenRefreshNet (ts : TokenStore) (now : Int) : Nat :=
  if ts.token = "" then tokenCreateNet ts.accessKey
  else if !shouldRefresh (some ts) now then 0
  else if ts.refreshToken = "" then 0
  else 1

/-- Accumulate a run of base-10 digits; any non-digit character fails. -/
def parseDigitsAux : List Char → Nat → Option Nat
  | [], acc => some acc
  | c :: cs, acc =>
    if c.isDigit then parseDigitsAux cs (10 * acc + (c.toNat - 48)) else none

/-- Parse a non-empty all-digit character list as a natural number. -/
def parseDigits : List Char → Option Nat
  | [] => none
  | c :: cs => parseDigitsAux (c :: cs) 0

/-- Model of `strconv.ParseInt(s, 10, 64)`: an optional sign followed by at
least one base-10 digit (the int64 range check is not modelled; it is
irrelevant to epoch-second timestamps). -/
def parseInt64 (s : String) : Option Int :=
  match s.data with
  | [] => none
  | c :: cs =>
    if c = '+' then (parseDigits cs).map Int.ofNat
    else if c = '-' then (parseDigits cs).map (fun n => -Int.ofNat n)
    else (parseDigits (c :: cs)).map Int.ofNat

/-- `(*Client).handleRetryAfter` from request.go: the rate gate's arming
operation.  State is the gate's `retryAfter` deadline (epoch seconds).  An
empty header fails; a header that does not parse as a base-10 integer fails
(`parseInt64` models `strconv.ParseInt(header, 10, 64)`); otherwise the
deadline is updated only when the parsed timestamp is strictly later
(`t.After(c.retryAfter)`).  Returns the optional error message and the new
deadline. -/
def handleRetryAfter (retryAfter : Int) (header : String) : Option String × Int :=
  if header = "" then (some "missing X-Ratelimit-Retry-After header", retryAfter)
  else
    match parseInt64 header with
    | none => (some ("invalid X-Ratelimit-Retry-After header " ++ header), retryAfter)
    | some ts => (none, if retryAfter < ts then ts else retryAfter)

/-- The gate deadline after a whole sequence of `handleRetryAfter` calls. -/
def armAll (retryAfter : Int) (headers : List String) : Int :=
  headers.foldl (fun d h => (handleRetryAfter d h).2) retryAfter

/-- The body of an outgoing HTTP request: Go's `req.Body` is either the nil
reader, the `http.NoBody` sentinel, or a reader over some bytes. -/
inductive ReqBody where
  | nil
  | noBody
  | reader (data : List Nat)
deriving DecidableEq

deriving instance DecidableEq for Except

/-- An outgoing HTTP request as the executor manipulates it: its body and its
`GetBody` replay mechanism (`none` when `req.GetBody` is nil; otherwise the
fresh reader contents it produces, or the error it fails with). -/
structure Request where
  body : ReqBody
  getBody : Option (Except String (List Nat))
deriving DecidableEq

/-- The body-relevant part of `(*Client).newRequest` from request.go: a nil
Go body yields a request with a nil body and no `GetBody`; a JSON-marshalled
body is wrapped in a `bytes.Reader`, for which `http.NewRequestWithContext`
installs a `GetBody` that replays the original bytes. -/
def newRequest (jsonBody : Option (List Nat)) : Request :=
  match jsonBody with
  | none => { body := .nil, getBody := none }
  | some bs => { body := .reader bs, getBody := some (.ok bs) }

/-- `(*Client).rewindBody` from request.go: nothing to rewind without a body;
without a `GetBody` the reader cannot be recreated; otherwise the body is
replaced by the fresh reader `GetBody` produces. -/
def rewindBody (req : Request) : Except String Request :=
  match req.body with
  | .nil => .ok req
  | .noBody => .ok req
  | .reader _ =>
    match req.getBody with
    | none => .error "cannot rewind body: GetBody is nil"
    | some (.error e) => .error e
    | some (.ok fresh) => .ok { req with body := .reader fresh }

/-- What the transport returns for one dispatch of the request: a network
error, or a response with a status code and (for the 429 case) the
`X-Ratelimit-Retry-After` header value. -/
inductive Outcome where
  | transport
  | resp (status : Int) (retryAfterHeader : String)
deriving DecidableEq

/-- Errors `(*Client).do` can surface.  `rateLimitHeader` and
`rateLimitRewind` are the two errors wrapped together with `ErrRateLimit` on
the 429 path; `badStatus` wraps `ErrStatus`; `outOfFuel` marks exhaustion of
the recursion bound of the embedding (the Go recursion is unbounded). -/
inductive DoErr where
  | token (e : TokenErr)
  | transport
  | rateLimitHeader (msg : String)
  | rateLimitRewind (msg : String)
  | badStatus (code : Int)
  | outOfFuel
deriving DecidableEq

/-- The mutable client state `do` touches: the token store and the rate
gate's deadline. -/
structure ClientState where
  auth : TokenStore
  retryAfter : Int

/-- `(*Client).do` from request.go, unfolded on attempt indices.  Per attempt
it waits on the rate gate (which, absent context cancellation, always returns
after the deadline and is not observable here), ensures the token is valid via
`tokenRefresh` (times and refresh-exchange outcomes per attempt are the
oracles `nowAt` and `tokenNet`), dispatches (`net`), and classifies: a 429
arms the gate, rewinds the body and recurses; another non-2xx fails with
`badStatus`; a 2xx is returned.  Results: final client state, the list of
requests dispatched in order, and the returned attempt index or the error. -/
def doAux (tokenNet : Nat → Option HttpResp) (net : Nat → Outcome) (nowAt : Nat → Int) :
    Nat → ClientState → Request → Nat → ClientState × List Request × Except DoErr Nat
  | 0, c, _, _ => (c, [], .error .outOfFuel)
  | fuel + 1, c, req, attempt =>
    match tokenRefresh c.auth (nowAt attempt) (tokenNet attempt) with
    | (auth2, some e) => ({ c with auth := auth2 }, [], .error (.token e))
    | (auth2, none) =>
      let c2 : ClientState := { c with auth := auth2 }
      match net attempt with
      | .transport => (c2, [req], .error .transport)
      | .resp status header =>
        if status = 429 then
          match handleRetryAfter c2.retryAfter header with
          | (some msg, ra2) =>
              ({ c2 with retryAfter := ra2 }, [req], .error (.rateLimitHeader msg))
          | (none, ra2) =>
            let c3 : ClientState := { c2 with retryAfter := ra2 }
            match rewindBody req with
            | .error msg => (c3, [req], .error (.rateLimitRewind msg))
            | .ok req2 =>
              match doAux tokenNet net nowAt fuel c3 req2 (attempt + 1) with
              | (c4, sent, res) => (c4, req :: sent, res)
        else if status < 200 ∨ 300 ≤ status then (c2, [req], .error (.badStatus status))
        else (c2, [req], .ok attempt)

/-- Pagination metadata echoed by the API (`Pagination`). -/
structure Pagination where
  totalRecords : Int
  totalPages : Int
  pageNo : Int
  pageLimit : Int
deriving DecidableEq

/-- Pagination request parameters (`PageParams`). -/
structure PageParams where
  pageNo : Int
  pageLimit : Int
deriving DecidableEq

/-- One value delivered by the iterator's yield callback: an item paired with
a nil error, or the zero item paired with a fetch error. -/
inductive Yield (E T : Type) where
  | item (t : T)
  | failed (e : E)
deriving DecidableEq

/-- The iterator's inner loop `for _, item := range items { if !yield(item, nil) ... }`.
The consumer is modelled by `k`: `k c` is what the `c`-th item-yield call
returns (`false` stops the iteration; the item was still delivered).  Returns
the items delivered, the next yield index, and whether the consumer stopped. -/
def yieldItems {T : Type} (k : Nat → Bool) : List T → Nat → List T × Nat × Bool
  | [], c => ([], c, false)
  | t :: ts, c =>
    if k c then
      let r := yieldItems k ts (c + 1)
      (t :: r.1, r.2.1, r.2.2)
    else ([t], c + 1, true)

/-- The loop of `iterate`: fetch the page; on error yield the single error
value and stop; yield the page's items until the consumer stops; then stop if
`totalPages > 0 && pageNo >= totalPages`, else stop if the page was empty,
else advance the page number.  `fuel` bounds the recursion of the embedding
(`none` = fuel exhausted); results are the yields in order and the parameters
of every fetch call in order. -/
def iterateAux {E T : Type} (fetch : PageParams → Except E (List T × Pagination))
    (k : Nat → Bool) :
    Nat → PageParams → Nat → Option (List (Yield E T) × List PageParams)
  | 0, _, _ => none
  | fuel + 1, params, c =>
    match fetch params with
    | .error e => some ([.failed e], [params])
    | .ok (items, meta) =>
      let r := yieldItems k items c
      let ys : List (Yield E T) := r.1.map Yield.item
      if r.2.2 then some (ys, [params])
      else if meta.totalPages > 0 ∧ meta.totalPages ≤ params.pageNo then some (ys, [params])
      else if items.length = 0 then some (ys, [params])
      else
        match iterateAux fetch k fuel { params with pageNo := params.pageNo + 1 } r.2.1 with
        | none => none
        | some (ys2, ps2) => some (ys ++ ys2, params :: ps2)

/-- `iterate` from the iterator file: start at page 1 with page limit 100. -/
def iterate {E T : Type} (fetch : PageParams → Except E (List T × Pagination))
    (k : Nat → Bool) (fuel : Nat) : Option (List (Yield E T) × List PageParams) :=
  iterateAux fetch k fuel { pageNo := 1, pageLimit := 100 } 0

/-- The consumer that never stops (every yield call returns true). -/
def kTrue : Nat → Bool := fun _ => true

/-- The page of a page list addressed by a 1-based page number. -/
def pageAt {T : Type} (pages : List (List T)) (n : Int) : List T :=
  if n ≤ 0 then [] else (pages.drop (n.toNat - 1)).headD []

/-- A fetcher derived from a list of pages whose metadata reports
`totalPages = pages.length` (and the total record count). -/
def listFetcher {T : Type} (pages : List (List T)) (p : PageParams) :
    Except Unit (List T × Pagination) :=
  .ok (pageAt pages p.pageNo,
       { totalRecords := ((pages.map List.length).sum : Nat),
         totalPages := (pages.length : Nat),
         pageNo := p.pageNo, pageLimit := p.pageLimit })

/-- A fetcher that succeeds on the pages of `pages`, reporting `tp` as
`totalPages` (0 models an API omitting it; `pages.length + 1 ≤ tp` models one
reporting a count at or beyond the failing page), and fails with `e` on every
later page. -/
def errFetcher {E T : Type} (pages : List (List T)) (tp : Int) (e : E) (p : PageParams) :
    Except E (List T × Pagination) :=
  if p.pageNo ≤ (pages.length : Nat) then
    .ok (pageAt pages p.pageNo,
         { totalRecords := ((pages.map List.length).sum : Nat),
           totalPages := tp, pageNo := p.pageNo, pageLimit := p.pageLimit })
  else .error e

/-- The fetch-call parameter list for `n` consecutive pages starting at
page number `start`, each with page limit 100. -/
def pageRange (start : Int) : Nat → List PageParams
  | 0 => []
  | n + 1 => { pageNo := start, pageLimit := 100 } :: pageRange (start + 1) n

/-! ## Scenario fixtures and the concurrency model used by the theorems -/

/-- A store holding a token whose claims expire exactly two minutes from now. -/
def boundaryStore : TokenStore :=
  { token := "t", refreshToken := "r", accessKey := "",
    claim := some { fsaID := "f", uniqID := "u", expiresAt := 120 },
    validate := fun _ => none }

/-- A store holding a token whose claims expire far in the future. -/
def farStore : TokenStore :=
  { token := "t", refreshToken := "r", accessKey := "",
    claim := some { fsaID := "f", uniqID := "u", expiresAt := 1000 },
    validate := fun _ => none }

/-- A failed envelope with an empty message and no field errors. -/
def emptyFailureEnvelope : Response Unit :=
  { code := 401, success := false, message := "", data := (), errors := [] }

/-- A failed envelope with a message and two field errors. -/
def twoErrorEnvelope : Response Unit :=
  { code := 400, success := false, message := "m", data := (),
    errors := [{ field := "f1", message := "e1" }, { field := "f2", message := "e2" }] }

/-- The token-store invariant: parsed claims are held whenever a token is. -/
def storeInv (ts : TokenStore) : Prop :=
  ts.token ≠ "" → ts.claim ≠ none

/-- Claims for the witness store: it accepts exactly the token "tok". -/
def demoClaim : JwtClaim := { fsaID := "f", uniqID := "u", expiresAt := 1000 }

/-- A verifier accepting exactly the token string "tok". -/
def demoValidate : String → Option JwtClaim :=
  fun s => if s = "tok" then some demoClaim else none

/-- A store holding a token, with the demo verifier installed. -/
def demoStore : TokenStore :=
  { token := "old", refreshToken := "oldr", accessKey := "ak",
    claim := some { fsaID := "f", uniqID := "u", expiresAt := 10 },
    validate := demoValidate }

/-- A near-expiry store with no refresh token. -/
def noRefreshStore : TokenStore :=
  { token := "t", refreshToken := "", accessKey := "ak",
    claim := some { fsaID := "f", uniqID := "u", expiresAt := 60 },
    validate := fun _ => none }

/-- A store with no token and no access key. -/
def emptyStore : TokenStore :=
  { token := "", refreshToken := "", accessKey := "",
    claim := none, validate := fun _ => none }

/-- A 500 response whose body decodes to a successful envelope carrying a
validating token. -/
def badStatusResp : HttpResp :=
  { status := 500,
    decoded := some { code := 200, success := true, message := "",
                      data := { token := "tok", refreshToken := "r2" }, errors := [] } }

/-- A request carrying a one-shot streaming body with no replay mechanism. -/
def streamRequest : Request :=
  { body := .reader [1, 2, 3], getBody := none }

/-- A fetcher that succeeds on page 1 with zero items (`totalPages` omitted,
i.e. 0) and returns an error on every page from 2 on. -/
def emptyThenErrorFetcher : PageParams → Except String (List Nat × Pagination) :=
  fun p =>
    if p.pageNo ≤ 1 then
      .ok ([], { totalRecords := 0, totalPages := 0, pageNo := p.pageNo,
                 pageLimit := p.pageLimit })
    else .error "boom"

/-- Program counter of one concurrent `TokenRefresh` caller: before `Lock()`,
inside the critical section, or returned. -/
inductive PC where
  | start
  | locked
  | done
deriving DecidableEq

/-- One concurrent caller: its program counter, the `time.Now()` reading it
uses, and the store token it reads once its call has returned. -/
structure ThreadSt where
  pc : PC
  now : Int
  obs : Option String

/-- The shared state of one client: the token store, the store's mutex
(`none` free, `some i` held by thread `i`), the callers, and the number of
network refresh dispatches performed so far. -/
structure Sys where
  auth : TokenStore
  lock : Option Nat
  threads : List ThreadSt
  network : Nat

/-- One scheduler step: thread `i` takes its next transition.  `Lock()`
blocks while any other thread holds the mutex; the `TokenRefresh` body for a
held token runs as one transition while holding the mutex, since the whole
check-expiry/refresh/update sequence is a single critical section and every
other thread's store access also requires the mutex; then `Unlock()` frees
the mutex and the caller reads the store's token. -/
def step (net : Option HttpResp) (s : Sys) (i : Nat) : Sys :=
  match s.threads[i]? with
  | none => s
  | some t =>
    match t.pc with
    | .done => s
    | .start =>
      match s.lock with
      | some _ => s
      | none =>
        { s with lock := some i, threads := s.threads.set i { t with pc := .locked } }
    | .locked =>
      if s.lock = some i then
        { s with
          auth := (tokenRefresh s.auth t.now net).1,
          lock := none,
          network := s.network + tokenRefreshNet s.auth t.now,
          threads := s.threads.set i
            { t with pc := .done, obs := some (tokenRefresh s.auth t.now net).1.token } }
      else s

/-- Run a whole schedule (an arbitrary interleaving order). -/
def run (net : Option HttpResp) (s : Sys) (sched : List Nat) : Sys :=
  sched.foldl (step net) s

/-- Initial state: every caller is before `Lock()` with its own clock
reading, no refresh performed yet. -/
def initSys (auth : TokenStore) (nows : List Int) : Sys :=
  { auth := auth, lock := none,
    threads := nows.map fun nw => { pc := .start, now := nw, obs := none },
    network := 0 }

/-- Invariant of the near-expiry refresh scenario: every caller's clock sees
the initial store `auth0` as near expiry and the refreshed store `ts2` as
fresh; a thread is inside the critical section only while holding the mutex;
and either no refresh has happened yet (store untouched, no caller returned)
or exactly one network refresh has happened (store refreshed, every returned
caller observed the refreshed token). -/
def RefreshInv (auth0 ts2 : TokenStore) (s : Sys) : Prop :=
  (∀ t ∈ s.threads,
    shouldRefresh (some auth0) t.now = true ∧ shouldRefresh (some ts2) t.now = false)
  ∧ (∀ j t, s.threads[j]? = some t → t.pc = .locked → s.lock = some j)
  ∧ ((s.network = 0 ∧ s.auth = auth0 ∧ ∀ t ∈ s.threads, t.pc ≠ .done)
     ∨ (s.network = 1 ∧ s.auth = ts2
        ∧ ∀ t ∈ s.threads, t.pc = .done → t.obs = some ts2.token))

/-- The successful refresh-exchange envelope used by the witness. -/
def refreshEnvelope : Response CreateTokenResponse :=
  { code := 200, success := true, message := "",
    data := { token := "tok", refreshToken := "r2" }, errors := [] }

/-- The witness network: a 200 refresh response with the envelope above. -/
def refreshNet : Option HttpResp := some { status := 200, decoded := some refreshEnvelope }

/-- The store after the witness refresh exchange. -/
def demoRefreshed : TokenStore :=
  { demoStore with claim := some demoClaim, token := "tok", refreshToken := "r2" }


/-! ## Helper lemmas -/

/-- When the store does not consider the token near expiry, `TokenRefresh` is
a no-op that performs no network round trip. -/
theorem tokenRefresh_noop (ts : TokenStore) (now : Int) (net : Option HttpResp)
    (h : shouldRefresh (some ts) now = false) :
    tokenRefresh ts now net = (ts, none) ∧ tokenRefreshNet ts now = 0 := by
  have htok : ¬ ts.token = "" := by
    intro he
    simp [shouldRefresh, he] at h
  constructor
  · simp [tokenRefresh, htok, h]
  · simp [tokenRefreshNet, htok, h]

/-- The collected error-part list is empty exactly when the message is empty
and there are no field errors. -/
theorem errParts_eq_nil_iff {T : Type} (r : Response T) :
    r.errParts = [] ↔ (r.message = "" ∧ r.errors = []) := by
  by_cases hm : r.message = "" <;> simp [Response.errParts, hm]

/-! ## Claim C1 -/

/-- Claim C1 counterexample: for a held token whose claims expire exactly two
minutes from now (`now = 0`, expiry `120`), the claim's condition
`now + 2 minutes ≥ expiry` holds, yet `shouldRefresh` returns false and
`TokenRefresh` is a no-op rather than a refresh attempt. -/
theorem shouldRefresh_boundary_counterexample :
    (0 : Int) + twoMinutes ≥ 120
    ∧ shouldRefresh (some boundaryStore) 0 = false
    ∧ tokenRefresh boundaryStore 0 none = (boundaryStore, none) := by
  refine ⟨by decide, by decide, rfl⟩

/-- Claim C1 (amended): for every token store holding a non-empty token with
parsed claims and every instant `now`, `shouldRefresh now` returns true
exactly when `now + 2 minutes` is STRICTLY after the claims' expiry; a token
whose claims expire strictly within the next 2 minutes triggers a refresh
attempt before reuse, and a token expiring at or after `now + 2 minutes`
never triggers a network call (`TokenRefresh` is a no-op for it). -/
theorem shouldRefresh_strict (ts : TokenStore) (now : Int) (c : JwtClaim)
    (htok : ts.token ≠ "") (hcl : ts.claim = some c) :
    (shouldRefresh (some ts) now = true ↔ now + twoMinutes > c.expiresAt)
    ∧ (now + twoMinutes ≤ c.expiresAt →
        ∀ net, tokenRefresh ts now net = (ts, none) ∧ tokenRefreshNet ts now = 0) := by
  have hiff : shouldRefresh (some ts) now = true ↔ now + twoMinutes > c.expiresAt := by
    simp [shouldRefresh, htok, hcl]
  refine ⟨hiff, fun hle net => ?_⟩
  have hfalse : shouldRefresh (some ts) now = false := by
    simp [shouldRefresh, htok, hcl]
    omega
  exact tokenRefresh_noop ts now net hfalse

/-- Witness for `shouldRefresh_strict` at the concrete store `farStore` and
instant 0. -/
theorem shouldRefresh_strict_witness :
    (shouldRefresh (some farStore) 0 = true ↔ (0 : Int) + twoMinutes > 1000)
    ∧ tokenRefresh farStore 0 none = (farStore, none) := by
  have h := shouldRefresh_strict farStore 0
    { fsaID := "f", uniqID := "u", expiresAt := 1000 } (by decide) rfl
  exact ⟨h.1, (h.2 (by decide) none).1⟩

/-! ## Claim C3 -/

/-- Claim C3 counterexample: an envelope whose success flag is false but whose
message is empty and whose field-error list is empty yields a nil error from
`Response.Error()` (the claim says `Error()` is nil exactly when success is
true). -/
theorem response_error_nil_counterexample :
    emptyFailureEnvelope.success = false ∧ emptyFailureEnvelope.error = none :=
  ⟨rfl, rfl⟩

/-- Claim C3 (amended): `Response.Error()` returns nil exactly when the
success flag is true OR the envelope carries neither a message nor field
errors; for every envelope whose success flag is false and which has a
non-empty message or at least one field error, it returns one aggregated
error combining the message (when non-empty) and each field error rendered
with its field name and message; the data payload plays no role. -/
theorem response_error_spec {T : Type} (r : Response T) :
    (r.error = none ↔ (r.success = true ∨ (r.message = "" ∧ r.errors = [])))
    ∧ (r.success = false → (r.message ≠ "" ∨ r.errors ≠ []) → r.error = some r.errParts)
    ∧ (r.success = false → r.message ≠ "" →
        ∃ parts, r.error = some parts ∧ r.message ∈ parts ∧
          ∀ fe ∈ r.errors, fe.errorString ∈ parts)
    ∧ (∀ d : T, Response.error { r with data := d } = r.error) := by
  have hsome : r.success = false → (r.message ≠ "" ∨ r.errors ≠ []) →
      r.error = some r.errParts := by
    intro hs hne
    have hp : r.errParts ≠ [] := by
      intro h0
      rcases (errParts_eq_nil_iff r).mp h0 with ⟨hm, he⟩
      rcases hne with h | h <;> exact h (by assumption)
    rcases hp2 : r.errParts with _ | ⟨p, ps⟩
    · exact absurd hp2 hp
    · simp [Response.error, hs, hp2]
  refine ⟨?_, hsome, ?_, fun d => rfl⟩
  · by_cases hs : r.success
    · simp [Response.error, hs]
    · rcases hp : r.errParts with _ | ⟨p, ps⟩
      · have := (errParts_eq_nil_iff r).mp hp
        simp [Response.error, hs, hp, this]
      · have hne : ¬ (r.message = "" ∧ r.errors = []) := by
          intro hand
          have : r.errParts = [] := (errParts_eq_nil_iff r).mpr hand
          rw [this] at hp
          cases hp
        simp [Response.error, hs, hp, hne]
  · intro hs hm
    refine ⟨r.errParts, hsome hs (Or.inl hm), ?_, ?_⟩
    · simp [Response.errParts, hm]
    · intro fe hfe
      simp [Response.errParts]
      exact Or.inr ⟨fe, hfe, rfl⟩

/-- Witness for `response_error_spec`: the concrete envelope with
success=false, a message and two field errors yields the single aggregated
error carrying all three messages. -/
theorem response_error_spec_witness :
    twoErrorEnvelope.error = some ["m", "f1: e1", "f2: e2"] := by
  have h := (response_error_spec twoErrorEnvelope).2.1 rfl (Or.inl (by decide))
  rw [h]
  rfl

/-! ## Claim C4 -/

/-- Claim C4: the rate gate's retry-not-before deadline is monotonically
non-decreasing across every sequence of `handleRetryAfter` calls; a parsable
Unix-epoch-seconds header updates the deadline only when strictly later than
the current one (an earlier or equal timestamp leaves it unchanged), and a
missing or unparsable header returns an error and leaves it unchanged. -/
theorem handleRetryAfter_ratchet :
    (∀ d h, d ≤ (handleRetryAfter d h).2)
    ∧ (∀ d h ts, h ≠ "" → parseInt64 h = some ts →
        handleRetryAfter d h = (none, if d < ts then ts else d))
    ∧ (∀ d h ts, h ≠ "" → parseInt64 h = some ts → ts ≤ d → handleRetryAfter d h = (none, d))
    ∧ (∀ d h, h = "" ∨ parseInt64 h = none →
        (handleRetryAfter d h).1.isSome = true ∧ (handleRetryAfter d h).2 = d)
    ∧ (∀ d hs, d ≤ armAll d hs) := by
  have hstep : ∀ d h, d ≤ (handleRetryAfter d h).2 := by
    intro d h
    by_cases he : h = ""
    · simp [handleRetryAfter, he]
    · rcases hp : parseInt64 h with _ | ts
      · simp [handleRetryAfter, he, hp]
      · simp only [handleRetryAfter, he, hp, if_neg he]
        by_cases hlt : d < ts
        · simp [hlt]
          omega
        · simp [hlt]
  refine ⟨hstep, ?_, ?_, ?_, ?_⟩
  · intro d h ts he hp
    simp [handleRetryAfter, he, hp]
  · intro d h ts he hp hle
    simp [handleRetryAfter, he, hp]
    omega
  · intro d h hcase
    rcases hcase with he | hp
    · simp [handleRetryAfter, he]
    · by_cases he : h = ""
      · simp [handleRetryAfter, he]
      · simp [handleRetryAfter, he, hp]
  · intro d hs
    induction hs generalizing d with
    | nil => simp [armAll]
    | cons h t ih =>
      have h1 : d ≤ (handleRetryAfter d h).2 := hstep d h
      have h2 : (handleRetryAfter d h).2 ≤ armAll (handleRetryAfter d h).2 t := ih _
      have : armAll d (h :: t) = armAll (handleRetryAfter d h).2 t := by
        simp [armAll]
      omega

/-- Witness for `handleRetryAfter_ratchet`: arming an already-later deadline
(100) with an earlier timestamp (50) is a no-op, and a missing header errors
without touching the deadline. -/
theorem handleRetryAfter_ratchet_witness :
    handleRetryAfter 100 "50" = (none, 100)
    ∧ (handleRetryAfter 100 "").1.isSome = true ∧ (handleRetryAfter 100 "").2 = 100 := by
  refine ⟨handleRetryAfter_ratchet.2.2.1 100 "50" 50 (by decide) (by decide) (by decide), ?_⟩
  exact handleRetryAfter_ratchet.2.2.2.1 100 "" (Or.inl rfl)

/-! ## Claim C5 -/

/-- Claim C5: token-store updates are atomic.  If validation of the token in
a `CreateTokenResponse` fails, `updateToken` errors and leaves token, refresh
token and claims exactly as they were; if it succeeds, all three fields are
replaced together.  Hence the invariant "claims is non-nil whenever token is
non-empty" is preserved by `updateToken`, and hence by `tokenCreate` and
`tokenRefresh`. -/
theorem updateToken_atomic (ts : TokenStore) (resp : CreateTokenResponse) :
    (ts.validate resp.token = none → updateToken ts resp = (ts, some .invalidToken))
    ∧ (∀ c, ts.validate resp.token = some c →
        updateToken ts resp
          = ({ ts with claim := some c, token := resp.token, refreshToken := resp.refreshToken },
             none))
    ∧ (storeInv ts → storeInv (updateToken ts resp).1)
    ∧ (∀ key net, storeInv ts → storeInv (tokenCreate ts key net).1)
    ∧ (∀ now net, storeInv ts → storeInv (tokenRefresh ts now net).1) := by
  have hfail : ts.validate resp.token = none → updateToken ts resp = (ts, some .invalidToken) := by
    intro h
    simp [updateToken, validateToken, h]
  have hok : ∀ c, ts.validate resp.token = some c →
      updateToken ts resp
        = ({ ts with claim := some c, token := resp.token, refreshToken := resp.refreshToken },
           none) := by
    intro c h
    simp [updateToken, validateToken, h]
  have hupd : ∀ (t : TokenStore) (r : CreateTokenResponse),
      storeInv t → storeInv (updateToken t r).1 := by
    intro t r hinv
    rcases h : t.validate r.token with _ | c
    · simp [updateToken, validateToken, h]
      exact hinv
    · simp [updateToken, validateToken, h, storeInv]
  have hcreate : ∀ (t : TokenStore) key net, storeInv t → storeInv (tokenCreate t key net).1 := by
    intro t key net hinv
    by_cases hk : key = ""
    · simpa [tokenCreate, hk] using hinv
    · rcases net with _ | resp
      · simpa [tokenCreate, hk] using hinv
      · rcases hd : resp.decoded with _ | env
        · simpa [tokenCreate, hk, hd] using hinv
        · rcases he : env.error with _ | parts
          · simpa [tokenCreate, hk, hd, he] using hupd t env.data hinv
          · simpa [tokenCreate, hk, hd, he] using hinv
  refine ⟨hfail, hok, hupd ts resp, fun key net => hcreate ts key net, fun now net hinv => ?_⟩
  by_cases ht : ts.token = ""
  · simpa [tokenRefresh, ht] using hcreate ts ts.accessKey net hinv
  · by_cases hsr : shouldRefresh (some ts) now
    · by_cases hr : ts.refreshToken = ""
      · simpa [tokenRefresh, ht, hsr, hr] using hinv
      · rcases net with _ | resp
        · simpa [tokenRefresh, ht, hsr, hr] using hinv
        · by_cases hst : resp.status < 200 ∨ 300 ≤ resp.status
          · simpa [tokenRefresh, ht, hsr, hr, hst] using hinv
          · rcases hd : resp.decoded with _ | env
            · simpa [tokenRefresh, ht, hsr, hr, hst, hd] using hinv
            · rcases he : env.error with _ | parts
              · simpa [tokenRefresh, ht, hsr, hr, hst, hd, he] using
                  hupd ts env.data hinv
              · simpa [tokenRefresh, ht, hsr, hr, hst, hd, he] using hinv
    · have hsr2 : shouldRefresh (some ts) now = false := by
        simpa using hsr
      simpa [(tokenRefresh_noop ts now net hsr2).1] using hinv

/-- Witness for `updateToken_atomic`: a response whose token fails validation
leaves `demoStore` untouched and errors; one whose token validates replaces
all three fields together. -/
theorem updateToken_atomic_witness :
    updateToken demoStore { token := "bad", refreshToken := "r2" }
      = (demoStore, some .invalidToken)
    ∧ updateToken demoStore { token := "tok", refreshToken := "r2" }
      = ({ demoStore with claim := some demoClaim, token := "tok", refreshToken := "r2" },
         none) := by
  constructor
  · exact (updateToken_atomic demoStore { token := "bad", refreshToken := "r2" }).1 rfl
  · exact (updateToken_atomic demoStore { token := "tok", refreshToken := "r2" }).2.1
      demoClaim rfl

/-! ## Claim C8 -/

/-- Claim C8: `TokenRefresh` dispatches as follows: with no held token it
performs the issue exchange with the configured access key, failing with
`noAccessKey` when none is configured; with a held token not near expiry it
returns nil, makes no network call and leaves the store unchanged; with a
held near-expiry token and no stored refresh token it fails with
`noRefreshToken` and leaves the store unchanged. -/
theorem tokenRefresh_dispatch (ts : TokenStore) (now : Int) (net : Option HttpResp) :
    (ts.token = "" → tokenRefresh ts now net = tokenCreate ts ts.accessKey net)
    ∧ (ts.token = "" → ts.accessKey = "" → tokenRefresh ts now net = (ts, some .noAccessKey))
    ∧ (ts.token ≠ "" → shouldRefresh (some ts) now = false →
        tokenRefresh ts now net = (ts, none) ∧ tokenRefreshNet ts now = 0)
    ∧ (ts.token ≠ "" → shouldRefresh (some ts) now = true → ts.refreshToken = "" →
        tokenRefresh ts now net = (ts, some .noRefreshToken) ∧ tokenRefreshNet ts now = 0) := by
  refine ⟨fun ht => by simp [tokenRefresh, ht], fun ht hk => ?_, fun ht hsr => ?_,
    fun ht hsr hr => ?_⟩
  · simp [tokenRefresh, ht, tokenCreate, hk]
  · exact tokenRefresh_noop ts now net hsr
  · constructor
    · simp [tokenRefresh, ht, hsr, hr]
    · simp [tokenRefreshNet, ht, hsr, hr]

/-- Witness for `tokenRefresh_dispatch` at concrete stores: no token and no
access key fails with `noAccessKey`; a held far-expiry token is a no-op; a
held near-expiry token without refresh token fails with `noRefreshToken`. -/
theorem tokenRefresh_dispatch_witness :
    tokenRefresh emptyStore 0 none = (emptyStore, some .noAccessKey)
    ∧ tokenRefresh farStore 0 none = (farStore, none)
    ∧ tokenRefresh noRefreshStore 0 none = (noRefreshStore, some .noRefreshToken) := by
  refine ⟨(tokenRefresh_dispatch emptyStore 0 none).2.1 rfl rfl, ?_, ?_⟩
  · exact ((tokenRefresh_dispatch farStore 0 none).2.2.1 (by decide) (by decide)).1
  · exact ((tokenRefresh_dispatch noRefreshStore 0 none).2.2.2 (by decide) (by decide) rfl).1

/-! ## Claim C10 -/

/-- Claim C10 (implicit): `TokenCreate` never inspects the HTTP status code
of the issue exchange — its result is the same for any two statuses with the
same decoded body, and its error is never the `badStatus` (UnexpectedStatus)
error; `TokenRefresh`, by contrast, rejects every non-2xx refresh response
with `badStatus` before the body is decoded (its result does not depend on
the decoded body). -/
theorem tokenCreate_ignores_status :
    (∀ (ts : TokenStore) key d s1 s2,
        tokenCreate ts key (some { status := s1, decoded := d })
          = tokenCreate ts key (some { status := s2, decoded := d }))
    ∧ (∀ (ts : TokenStore) key net c, (tokenCreate ts key net).2 ≠ some (.badStatus c))
    ∧ (∀ (ts : TokenStore) now (resp : HttpResp), ts.token ≠ "" →
        shouldRefresh (some ts) now = true → ts.refreshToken ≠ "" →
        resp.status < 200 ∨ 300 ≤ resp.status →
        tokenRefresh ts now (some resp) = (ts, some (.badStatus resp.status))) := by
  refine ⟨fun ts key d s1 s2 => rfl, fun ts key net c => ?_, fun ts now resp ht hsr hr hst => ?_⟩
  · by_cases hk : key = ""
    · simp [tokenCreate, hk]
    · rcases net with _ | resp
      · simp [tokenCreate, hk]
      · rcases hd : resp.decoded with _ | env
        · simp [tokenCreate, hk, hd]
        · rcases he : env.error with _ | parts
          · rcases hv : ts.validate env.data.token with _ | cl
            · simp [tokenCreate, hk, hd, he, updateToken, validateToken, hv]
            · simp [tokenCreate, hk, hd, he, updateToken, validateToken, hv]
          · simp [tokenCreate, hk, hd, he]
  · simp [tokenRefresh, ht, hsr, hr, hst]

/-- Witness for `tokenCreate_ignores_status`: on a 500 issue response whose
body decodes, `tokenCreate` happily installs the token (no `badStatus`
error), while `tokenRefresh` on the same response fails with `badStatus 500`
whatever the body says. -/
theorem tokenCreate_ignores_status_witness :
    (tokenCreate demoStore "ak" (some badStatusResp)).2 ≠ some (.badStatus 500)
    ∧ tokenRefresh demoStore 0 (some badStatusResp) = (demoStore, some (.badStatus 500)) := by
  constructor
  · exact tokenCreate_ignores_status.2.1 demoStore "ak" (some badStatusResp) 500
  · exact tokenCreate_ignores_status.2.2 demoStore 0 badStatusResp (by decide) (by decide)
      (by decide) (by decide)

/-! ## Claim C9 -/

/-- Claim C9: body-rewind on the 429 retry path.  A request without a body
(nil or the no-body sentinel) rewinds trivially; a request with a body but no
`GetBody` replay mechanism fails to rewind, and the executor aborts the retry,
surfacing the rewind failure wrapped with the rate-limit error after a single
dispatch (no resend); a request with a replay mechanism gets its body replaced
by a fresh reader, so the retried request carries the original bytes. -/
theorem rewindBody_policy :
    (∀ req : Request, req.body = .nil ∨ req.body = .noBody → rewindBody req = .ok req)
    ∧ (∀ (req : Request) d, req.body = .reader d → req.getBody = none →
        rewindBody req = .error "cannot rewind body: GetBody is nil")
    ∧ (∀ (req : Request) d orig, req.body = .reader d → req.getBody = some (.ok orig) →
        rewindBody req = .ok { req with body := .reader orig })
    ∧ (∀ tokenNet net nowAt fuel (c : ClientState) (req : Request) d header ra2,
        (∀ a, tokenRefresh c.auth (nowAt a) (tokenNet a) = (c.auth, none)) →
        req.body = .reader d → req.getBody = none →
        net 0 = .resp 429 header → handleRetryAfter c.retryAfter header = (none, ra2) →
        doAux tokenNet net nowAt (fuel + 1) c req 0
          = ({ c with retryAfter := ra2 }, [req],
             .error (.rateLimitRewind "cannot rewind body: GetBody is nil")))
    ∧ (∀ tokenNet net nowAt (c : ClientState) (bs : List Nat) header ra2 s,
        (∀ a, tokenRefresh c.auth (nowAt a) (tokenNet a) = (c.auth, none)) →
        net 0 = .resp 429 header → handleRetryAfter c.retryAfter header = (none, ra2) →
        net 1 = .resp s "" → 200 ≤ s → s < 300 →
        doAux tokenNet net nowAt 2 c (newRequest (some bs)) 0
          = ({ c with retryAfter := ra2 },
             [newRequest (some bs), newRequest (some bs)], .ok 1)) := by
  have hnil : ∀ req : Request, req.body = .nil ∨ req.body = .noBody → rewindBody req = .ok req := by
    intro req h
    rcases h with h | h <;> simp [rewindBody, h]
  have hnoget : ∀ (req : Request) d, req.body = .reader d → req.getBody = none →
      rewindBody req = .error "cannot rewind body: GetBody is nil" := by
    intro req d hb hg
    simp [rewindBody, hb, hg]
  have hget : ∀ (req : Request) d orig, req.body = .reader d → req.getBody = some (.ok orig) →
      rewindBody req = .ok { req with body := .reader orig } := by
    intro req d orig hb hg
    simp [rewindBody, hb, hg]
  refine ⟨hnil, hnoget, hget, ?_, ?_⟩
  · intro tokenNet net nowAt fuel c req d header ra2 htr hb hg hnet hhra
    have hc : { c with auth := c.auth } = c := rfl
    simp [doAux, htr 0, hnet, hc, hhra, hnoget req d hb hg]
  · intro tokenNet net nowAt c bs header ra2 s htr hnet0 hhra hnet1 hs1 hs2
    have hc : { c with auth := c.auth } = c := rfl
    have h429 : ¬ s = 429 := by omega
    have hrange : ¬ (s < 200 ∨ 300 ≤ s) := by omega
    have hrw : rewindBody (newRequest (some bs)) = .ok (newRequest (some bs)) :=
      hget (newRequest (some bs)) bs bs rfl rfl
    simp [doAux, htr 0, htr 1, hnet0, hnet1, hc, hhra, hrw, if_neg h429, if_neg hrange]

/-- Witness for `rewindBody_policy` at concrete inputs: the one-shot body
aborts the 429 retry with the wrapped rewind failure after one dispatch, and
a JSON request is resent with its original bytes. -/
theorem rewindBody_policy_witness :
    doAux (fun _ => none) (fun _ => .resp 429 "50") (fun _ => 0) 1
        { auth := farStore, retryAfter := 0 } streamRequest 0
      = ({ auth := farStore, retryAfter := 50 }, [streamRequest],
         .error (.rateLimitRewind "cannot rewind body: GetBody is nil"))
    ∧ doAux (fun _ => none) (fun a => if a = 0 then .resp 429 "50" else .resp 200 "") (fun _ => 0)
        2 { auth := farStore, retryAfter := 0 } (newRequest (some [7, 8])) 0
      = ({ auth := farStore, retryAfter := 50 },
         [newRequest (some [7, 8]), newRequest (some [7, 8])], .ok 1) := by
  constructor
  · exact rewindBody_policy.2.2.2.1 (fun _ => none) (fun _ => .resp 429 "50") (fun _ => 0) 0
      { auth := farStore, retryAfter := 0 } streamRequest [1, 2, 3] "50" 50
      (fun a => rfl) rfl rfl rfl rfl
  · exact rewindBody_policy.2.2.2.2 (fun _ => none)
      (fun a => if a = 0 then .resp 429 "50" else .resp 200 "") (fun _ => 0)
      { auth := farStore, retryAfter := 0 } [7, 8] "50" 50 200
      (fun a => rfl) rfl rfl rfl (by decide) (by decide)

/-! ## Claims C2 and C7: the page iterator -/

/-- With the never-stopping consumer, the inner loop delivers the whole page. -/
theorem yieldItems_kTrue {T : Type} (l : List T) :
    ∀ c, yieldItems kTrue l c = (l, c + l.length, false) := by
  induction l with
  | nil => intro c; simp [yieldItems]
  | cons t ts ih =>
    intro c
    simp [yieldItems, kTrue, ih (c + 1)]
    omega

/-- The derived fetcher's page at page number `pre.length + 1` of `pre ++ post`
is the head of `post`. -/
theorem pageAt_append {T : Type} (pre post : List (List T)) (n : Int)
    (hn : n = (pre.length : Nat) + 1) :
    pageAt (pre ++ post) n = post.headD [] := by
  have h0 : ¬ n ≤ 0 := by omega
  rw [pageAt, if_neg h0]
  have h1 : n.toNat - 1 = pre.length := by omega
  rw [h1, List.drop_left]

/-- Iterating the fetcher derived from `pre ++ post` starting at the first
page of the `post` suffix (all of whose pages are non-empty) yields exactly
the items of `post` in order and fetches exactly its pages in order. -/
theorem iterateAux_listFetcher {T : Type} (post : List (List T)) :
    ∀ (pre : List (List T)) (n : Int) (c fuel : Nat),
      n = (pre.length : Nat) + 1 → post ≠ [] → (∀ pg ∈ post, pg ≠ []) →
      post.length ≤ fuel →
      iterateAux (listFetcher (pre ++ post)) kTrue fuel { pageNo := n, pageLimit := 100 } c
        = some ((post.flatten).map Yield.item, pageRange n post.length) := by
  induction post with
  | nil => exact fun pre n c fuel hn hne hall hfuel => absurd rfl hne
  | cons p rest ih =>
    intro pre n c fuel hn hne hall hfuel
    have hf1 : 1 ≤ fuel := le_trans (by simp) hfuel
    obtain ⟨f, rfl⟩ : ∃ f, fuel = f + 1 := ⟨fuel - 1, by omega⟩
    have hfetch : listFetcher (pre ++ p :: rest) { pageNo := n, pageLimit := 100 }
        = .ok (p, { totalRecords := (((pre ++ p :: rest).map List.length).sum : Nat),
                    totalPages := (((pre ++ p :: rest).length : Nat) : Int),
                    pageNo := n, pageLimit := 100 }) := by
      simp [listFetcher, pageAt_append pre (p :: rest) n hn]
    have hpne : p ≠ [] := hall p (by simp)
    have hplen : ¬ p.length = 0 := by simpa using hpne
    cases rest with
    | nil =>
      have hstop : ((((pre ++ [p]).length : Nat) : Int) > 0
          ∧ (((pre ++ [p]).length : Nat) : Int) ≤ n) := by
        simp only [List.length_append, List.length_cons, List.length_nil]
        push_cast
        omega
      simp [iterateAux, hfetch, yieldItems_kTrue, hstop, pageRange]
      intro h1
      exfalso
      omega
    | cons q rest2 =>
      have hnostop : ¬ ((((pre ++ p :: q :: rest2).length : Nat) : Int) > 0
          ∧ (((pre ++ p :: q :: rest2).length : Nat) : Int) ≤ n) := by
        intro hand
        have h2 := hand.2
        simp only [List.length_append, List.length_cons] at h2
        push_cast at h2
        omega
      have ihx := ih (pre ++ [p]) (n + 1) (c + p.length) f
        (by simp only [List.length_append, List.length_cons, List.length_nil]; push_cast; omega)
        (by simp)
        (fun pg hpg => hall pg (List.mem_cons_of_mem p hpg))
        (by simp only [List.length_cons] at hfuel ⊢; omega)
      rw [List.append_assoc, List.singleton_append] at ihx
      simp [iterateAux, hfetch, yieldItems_kTrue, hnostop, hplen, ihx, pageRange]
      intro h1
      omega

/-- Claim C2: with the default start (page 1, page limit 100), for every
fetcher derived from a non-empty list of non-empty pages whose metadata
reports `totalPages = N`, `iterate` yields every item in original
page/position order exactly once and fetches exactly pages `1..N` in order
when the consumer never stops; and whenever a fetch reports `totalPages = 0`
and returns zero items, the iterator stops right after that fetch. -/
theorem iterate_pages {α : Type} (pages : List (List α)) (fuel : Nat)
    (hne : pages ≠ []) (hall : ∀ pg ∈ pages, pg ≠ []) (hfuel : pages.length ≤ fuel) :
    iterate (listFetcher pages) kTrue fuel
      = some ((pages.flatten).map Yield.item, pageRange 1 pages.length)
    ∧ (∀ (fetch : PageParams → Except Unit (List α × Pagination)) k f p c meta,
        fetch p = .ok ([], meta) → meta.totalPages = 0 →
        iterateAux fetch k (f + 1) p c = some ([], [p])) := by
  constructor
  · have h := iterateAux_listFetcher pages [] 1 0 fuel (by simp) hne hall hfuel
    simpa [iterate] using h
  · intro fetch k f p c meta hfetch hmeta
    simp [iterateAux, hfetch, yieldItems, hmeta]

/-- Witness for `iterate_pages`: two pages `[1, 2]` and `[3]` with
`totalPages = 2` produce the three items in order over exactly two fetches,
and a lone zero-item `totalPages = 0` fetch stops the iterator at once. -/
theorem iterate_pages_witness :
    iterate (listFetcher [[1, 2], [3]]) kTrue 2
      = some ([Yield.item 1, Yield.item 2, Yield.item 3],
              [{ pageNo := 1, pageLimit := 100 }, { pageNo := 2, pageLimit := 100 }])
    ∧ iterateAux (listFetcher ([] : List (List Nat))) kTrue 1 { pageNo := 1, pageLimit := 100 } 0
      = some ([], [{ pageNo := 1, pageLimit := 100 }]) := by
  have h := iterate_pages [[1, 2], [3]] 2 (by decide) (by decide) (by decide)
  constructor
  · simpa [pageRange] using h.1
  · exact h.2 (listFetcher []) kTrue 0 { pageNo := 1, pageLimit := 100 } 0
      { totalRecords := 0, totalPages := 0, pageNo := 1, pageLimit := 100 } rfl rfl

/-- Iterating a fetcher that serves the non-empty pages of `post` and then
fails yields the items of `post` followed by the single error, fetching each
page once plus the failing page, provided the reported `totalPages` value
`tp` does not stop the iteration on a successful page: either 0 (omitted) or
at least the failing page number. -/
theorem iterateAux_errFetcher {α ε : Type} (post : List (List α)) (e : ε) (tp : Int) :
    ∀ (pre : List (List α)) (n : Int) (c fuel : Nat),
      n = (pre.length : Nat) + 1 → (∀ pg ∈ post, pg ≠ []) → post.length + 1 ≤ fuel →
      (tp = 0 ∨ ((((pre ++ post).length : Nat) : Int) + 1 ≤ tp)) →
      iterateAux (errFetcher (pre ++ post) tp e) kTrue fuel { pageNo := n, pageLimit := 100 } c
        = some ((post.flatten).map Yield.item ++ [.failed e], pageRange n (post.length + 1)) := by
  induction post with
  | nil =>
    intro pre n c fuel hn hall hfuel htp
    obtain ⟨f, rfl⟩ : ∃ f, fuel = f + 1 := ⟨fuel - 1, by omega⟩
    rw [List.append_nil]
    have hgt : ¬ (n ≤ ((pre.length : Nat) : Int)) := by omega
    simp [iterateAux, errFetcher, hgt, pageRange]
  | cons p rest ih =>
    intro pre n c fuel hn hall hfuel htp
    have hf1 : 1 ≤ fuel := by omega
    obtain ⟨f, rfl⟩ : ∃ f, fuel = f + 1 := ⟨fuel - 1, by omega⟩
    have hle : n ≤ ((pre.length : Nat) : Int) + (((rest.length : Nat) : Int) + 1) := by omega
    have htp2 : tp = 0 ∨ ((pre.length : Nat) : Int) + (((rest.length : Nat) : Int) + 1) + 1 ≤ tp := by
      rcases htp with h0 | hK
      · exact Or.inl h0
      · refine Or.inr ?_
        simp only [List.length_append, List.length_cons] at hK
        push_cast at hK
        omega
    have hnostop : ¬ (tp > 0 ∧ tp ≤ n) := by
      rcases htp2 with h0 | hK
      · omega
      · omega
    have hfetch : errFetcher (pre ++ p :: rest) tp e { pageNo := n, pageLimit := 100 }
        = .ok (p, { totalRecords := (((pre ++ p :: rest).map List.length).sum : Nat),
                    totalPages := tp, pageNo := n, pageLimit := 100 }) := by
      simp [errFetcher, hle, pageAt_append pre (p :: rest) n hn]
    have hpne : p ≠ [] := hall p (by simp)
    have hplen : ¬ p.length = 0 := by simpa using hpne
    have ihx := ih (pre ++ [p]) (n + 1) (c + p.length) f
      (by simp only [List.length_append, List.length_cons, List.length_nil]; push_cast; omega)
      (fun pg hpg => hall pg (List.mem_cons_of_mem p hpg))
      (by simp only [List.length_cons] at hfuel ⊢; omega)
      (by
        rcases htp2 with h0 | hK
        · exact Or.inl h0
        · refine Or.inr ?_
          simp only [List.length_append, List.length_cons, List.length_nil]
          push_cast
          omega)
    rw [List.append_assoc, List.singleton_append] at ihx
    simp [iterateAux, hfetch, yieldItems_kTrue, hnostop, hplen, ihx, pageRange]

/-- Claim C7 counterexample: `emptyThenErrorFetcher` succeeds on pages
`1..K-1` and errors on page `K = 2`, yet `iterate` performs exactly ONE fetch
call and terminates without ever yielding the error (the empty page 1 stops
it), contradicting the claimed `K` fetches and terminal error yield. -/
theorem iterate_fetch_error_counterexample :
    iterate emptyThenErrorFetcher kTrue 5
      = some ([], [{ pageNo := 1, pageLimit := 100 }]) := by
  decide

/-- Claim C7 (amended): for every fetcher that succeeds with non-empty pages
`1..K-1`, reporting any `totalPages` value that does not stop the iteration
before page `K` (0, i.e. omitted, or `≥ K`), and returns an error on page
`K`, `iterate` yields exactly the items of pages `1..K-1` in order, then
exactly one terminal error value, performs exactly `K` fetch calls, and
terminates; and whenever the consumer stops consumption early, the iterator
performs no further fetch call after the page it stopped on. -/
theorem iterate_fetch_error {α ε : Type} (pages : List (List α)) (e : ε) (tp : Int) (fuel : Nat)
    (hall : ∀ pg ∈ pages, pg ≠ []) (hfuel : pages.length + 1 ≤ fuel)
    (htp : tp = 0 ∨ ((pages.length : Nat) : Int) + 1 ≤ tp) :
    iterate (errFetcher pages tp e) kTrue fuel
      = some ((pages.flatten).map Yield.item ++ [.failed e], pageRange 1 (pages.length + 1))
    ∧ (∀ (fetch : PageParams → Except ε (List α × Pagination)) k f p c items meta,
        fetch p = .ok (items, meta) → (yieldItems k items c).2.2 = true →
        iterateAux fetch k (f + 1) p c
          = some (((yieldItems k items c).1).map Yield.item, [p])) := by
  constructor
  · have h := iterateAux_errFetcher pages e tp [] 1 0 fuel (by simp) hall hfuel
      (by simpa using htp)
    simpa [iterate] using h
  · intro fetch k f p c items meta hfetch hstop
    simp [iterateAux, hfetch, hstop]

/-- Witness for `iterate_fetch_error`, exercising both premise disjuncts: one
non-empty page then an error on page `K = 2` yields both items then the
single error over exactly two fetches, whether the successful page reports
`totalPages = 0` (omitted) or `totalPages = 2 ≥ K`; and a consumer stopping
on the first item of page 1 causes no second fetch. -/
theorem iterate_fetch_error_witness :
    iterate (errFetcher [[1, 2]] 0 "boom") kTrue 3
      = some ([Yield.item 1, Yield.item 2, Yield.failed "boom"],
              [{ pageNo := 1, pageLimit := 100 }, { pageNo := 2, pageLimit := 100 }])
    ∧ iterate (errFetcher [[1, 2]] 2 "boom") kTrue 3
      = some ([Yield.item 1, Yield.item 2, Yield.failed "boom"],
              [{ pageNo := 1, pageLimit := 100 }, { pageNo := 2, pageLimit := 100 }])
    ∧ iterateAux (errFetcher [[1, 2]] 0 "boom") (fun _ => false) 3
        { pageNo := 1, pageLimit := 100 } 0
      = some ([Yield.item 1], [{ pageNo := 1, pageLimit := 100 }]) := by
  have h := iterate_fetch_error [[1, 2]] "boom" 0 3 (by decide) (by decide) (Or.inl rfl)
  have hK := iterate_fetch_error [[1, 2]] "boom" 2 3 (by decide) (by decide)
    (Or.inr (by decide))
  refine ⟨?_, ?_, ?_⟩
  · simpa [pageRange] using h.1
  · simpa [pageRange] using hK.1
  · have h2 := h.2 (errFetcher [[1, 2]] 0 "boom") (fun _ => false) 2
      { pageNo := 1, pageLimit := 100 } 0 [1, 2]
      { totalRecords := 2, totalPages := 0, pageNo := 1, pageLimit := 100 } (by decide) (by decide)
    simpa using h2

/-! ## Claim C6: no refresh storm -/

/-- Every scheduler step preserves the refresh-scenario invariant. -/
theorem refreshInv_step (auth0 ts2 : TokenStore) (net : Option HttpResp)
    (H : ∀ nw, shouldRefresh (some auth0) nw = true →
        tokenRefresh auth0 nw net = (ts2, none) ∧ tokenRefreshNet auth0 nw = 1)
    (s : Sys) (i : Nat) (hinv : RefreshInv auth0 ts2 s) :
    RefreshInv auth0 ts2 (step net s i) := by
  obtain ⟨hnows, hlock, hphase⟩ := hinv
  rcases hget : s.threads[i]? with _ | t
  · simpa [step, hget] using ⟨hnows, hlock, hphase⟩
  have htmem : t ∈ s.threads := List.getElem?_mem hget
  have hilen : i < s.threads.length := by
    by_contra hge
    rw [List.getElem?_eq_none (by omega)] at hget
    cases hget
  cases hpc : t.pc with
  | done => simpa [step, hget, hpc] using ⟨hnows, hlock, hphase⟩
  | start =>
    rcases hl : s.lock with _ | j
    · have hstep : step net s i
          = { s with
              lock := some i
              threads := s.threads.set i { t with pc := .locked } } := by
        simp [step, hget, hpc, hl]
      rw [hstep]
      refine ⟨?_, ?_, ?_⟩
      · intro x hx
        rcases List.mem_or_eq_of_mem_set hx with hx2 | rfl
        · exact hnows x hx2
        · exact hnows t htmem
      · intro j2 t2 ht2 hpc2
        by_cases hj : i = j2
        · exact congrArg some hj
        · exfalso
          have ht3 : (s.threads.set i { t with pc := PC.locked })[j2]? = some t2 := ht2
          rw [List.getElem?_set_ne hj] at ht3
          have h3 := hlock j2 t2 ht3 hpc2
          rw [hl] at h3
          cases h3
      · rcases hphase with ⟨hn0, ha0, hd0⟩ | ⟨hn1, ha1, hd1⟩
        · refine Or.inl ⟨hn0, ha0, ?_⟩
          intro x hx
          rcases List.mem_or_eq_of_mem_set hx with hx2 | rfl
          · exact hd0 x hx2
          · intro hxd
            exact PC.noConfusion hxd
        · refine Or.inr ⟨hn1, ha1, ?_⟩
          intro x hx hxd
          rcases List.mem_or_eq_of_mem_set hx with hx2 | rfl
          · exact hd1 x hx2 hxd
          · exact absurd hxd (fun h => PC.noConfusion h)
    · simpa [step, hget, hpc, hl] using ⟨hnows, hlock, hphase⟩
  | locked =>
    have hli : s.lock = some i := hlock i t hget hpc
    have hts : shouldRefresh (some auth0) t.now = true
        ∧ shouldRefresh (some ts2) t.now = false := hnows t htmem
    have hstep : step net s i
        = { s with
            auth := (tokenRefresh s.auth t.now net).1,
            lock := none,
            network := s.network + tokenRefreshNet s.auth t.now,
            threads := s.threads.set i
              { t with
                pc := .done
                obs := some (tokenRefresh s.auth t.now net).1.token } } := by
      simp [step, hget, hpc, hli]
    rw [hstep]
    refine ⟨?_, ?_, ?_⟩
    · intro x hx
      rcases List.mem_or_eq_of_mem_set hx with hx2 | rfl
      · exact hnows x hx2
      · exact hnows t htmem
    · intro j2 t2 ht2 hpc2
      exfalso
      have ht3 : (s.threads.set i
          { t with
            pc := PC.done
            obs := some (tokenRefresh s.auth t.now net).1.token })[j2]? = some t2 := ht2
      by_cases hj : i = j2
      · subst hj
        rw [List.getElem?_set_self hilen] at ht3
        injection ht3 with h2
        rw [← h2] at hpc2
        exact PC.noConfusion hpc2
      · rw [List.getElem?_set_ne hj] at ht3
        have h3 := hlock j2 t2 ht3 hpc2
        rw [hli] at h3
        injection h3 with h4
        exact hj h4
    · rcases hphase with ⟨hn0, ha0, hd0⟩ | ⟨hn1, ha1, hd1⟩
      · obtain ⟨htr, htn⟩ := H t.now hts.1
        refine Or.inr ⟨?_, ?_, ?_⟩
        · show s.network + tokenRefreshNet s.auth t.now = 1
          rw [hn0, ha0, htn]
        · show (tokenRefresh s.auth t.now net).1 = ts2
          rw [ha0, htr]
        · intro x hx hxd
          rcases List.mem_or_eq_of_mem_set hx with hx2 | rfl
          · exact absurd hxd (hd0 x hx2)
          · show some (tokenRefresh s.auth t.now net).1.token = some ts2.token
            rw [ha0, htr]
      · obtain ⟨htr2, htn2⟩ := tokenRefresh_noop ts2 t.now net hts.2
        refine Or.inr ⟨?_, ?_, ?_⟩
        · show s.network + tokenRefreshNet s.auth t.now = 1
          rw [hn1, ha1, htn2]
        · show (tokenRefresh s.auth t.now net).1 = ts2
          rw [ha1, htr2]
        · intro x hx hxd
          rcases List.mem_or_eq_of_mem_set hx with hx2 | rfl
          · exact hd1 x hx2 hxd
          · show some (tokenRefresh s.auth t.now net).1.token = some ts2.token
            rw [ha1, htr2]

/-- Claim C6: for every set of concurrent `TokenRefresh` callers against one
client whose held token every caller sees as near expiry (and whose refresh
exchange installs a token none of them sees as near expiry), under every
interleaving at most one network refresh call is performed — the
check-expiry/refresh/update sequence runs as one critical section under the
store's mutex — and every caller that has returned did so after exactly one
network refresh, observing the already-refreshed token. -/
theorem tokenRefresh_no_storm (auth0 ts2 : TokenStore) (net : Option HttpResp)
    (nows : List Int) (sched : List Nat)
    (H : ∀ nw, shouldRefresh (some auth0) nw = true →
        tokenRefresh auth0 nw net = (ts2, none) ∧ tokenRefreshNet auth0 nw = 1)
    (Hnows : ∀ nw ∈ nows,
        shouldRefresh (some auth0) nw = true ∧ shouldRefresh (some ts2) nw = false) :
    (run net (initSys auth0 nows) sched).network ≤ 1
    ∧ (∀ t ∈ (run net (initSys auth0 nows) sched).threads, t.pc = .done →
        (run net (initSys auth0 nows) sched).network = 1
        ∧ (run net (initSys auth0 nows) sched).auth = ts2
        ∧ t.obs = some ts2.token) := by
  have hinit : RefreshInv auth0 ts2 (initSys auth0 nows) := by
    refine ⟨?_, ?_, Or.inl ⟨rfl, rfl, ?_⟩⟩
    · intro x hx
      simp only [initSys, List.mem_map] at hx
      obtain ⟨nw, hnw, rfl⟩ := hx
      exact Hnows nw hnw
    · intro j x hjx hxpc
      simp only [initSys, List.getElem?_map, Option.map_eq_some'] at hjx
      obtain ⟨nw, _, rfl⟩ := hjx
      simp at hxpc
    · intro x hx
      simp only [initSys, List.mem_map] at hx
      obtain ⟨nw, hnw, rfl⟩ := hx
      simp
  have hrun : ∀ (l : List Nat) (s : Sys), RefreshInv auth0 ts2 s →
      RefreshInv auth0 ts2 (run net s l) := by
    intro l
    induction l with
    | nil => intro s hs; simpa [run] using hs
    | cons a l2 ih =>
      intro s hs
      have hr : run net s (a :: l2) = run net (step net s a) l2 := by
        simp [run]
      rw [hr]
      exact ih _ (refreshInv_step auth0 ts2 net H s a hs)
  obtain ⟨_, _, hphase⟩ := hrun sched (initSys auth0 nows) hinit
  rcases hphase with ⟨hn0, _, hd0⟩ | ⟨hn1, ha1, hd1⟩
  · refine ⟨by omega, fun x hx hxd => absurd hxd (hd0 x hx)⟩
  · exact ⟨by omega, fun x hx hxd => ⟨hn1, ha1, hd1 x hx hxd⟩⟩

/-- Witness for `tokenRefresh_no_storm`: two callers with clocks 0 and 5
against `demoStore` (near expiry for both) under the schedule [0,0,1,1]. -/
theorem tokenRefresh_no_storm_witness :
    (run refreshNet (initSys demoStore [0, 5]) [0, 0, 1, 1]).network ≤ 1
    ∧ (∀ t ∈ (run refreshNet (initSys demoStore [0, 5]) [0, 0, 1, 1]).threads,
        t.pc = .done →
        (run refreshNet (initSys demoStore [0, 5]) [0, 0, 1, 1]).network = 1
        ∧ (run refreshNet (initSys demoStore [0, 5]) [0, 0, 1, 1]).auth = demoRefreshed
        ∧ t.obs = some demoRefreshed.token) := by
  have H : ∀ nw, shouldRefresh (some demoStore) nw = true →
      tokenRefresh demoStore nw refreshNet = (demoRefreshed, none)
      ∧ tokenRefreshNet demoStore nw = 1 := by
    intro nw h
    constructor
    · rw [tokenRefresh.eq_def, h]
      rfl
    · rw [tokenRefreshNet.eq_def, h]
      rfl
  exact tokenRefresh_no_storm demoStore demoRefreshed refreshNet [0, 5] [0, 0, 1, 1] H
    (by decide)

end Fairgate
